import Mathlib

/-
  Verification development for the docstring quality pipeline in
  src/utils/noise_removal/noise_removal.py.

  The Python source is shallowly embedded: strings are Lean `String`s
  (worked on through their `List Char` data), every text transform is a
  total computable function, fallible Python code (statements that raise)
  is modelled with `Except`/`Option`, and floating point threshold
  comparisons such as `a / n < 0.7` are modelled by the exact integer
  comparison `10 * a < 7 * n` (for the string lengths involved, IEEE
  double division is correctly rounded, so the comparisons agree; the
  literals 0.3, 0.4, 0.7 round to doubles strictly below the rational
  value, and an exact ratio hit compares equal on both sides).

  Regular expressions from the source are compiled by hand into
  structural character scanners; each scanner's doc comment names the
  regex it implements and records the backtracking analysis that
  justifies the translation.
-/

/-! ## Character classes -/

/-- Apostrophe character (code 39). -/
def apos : Char := Char.ofNat 39

/-- Double-quote character (code 34). -/
def dquote : Char := Char.ofNat 34

/-- Whitespace as recognized by Python's `str.split()` / `str.strip()` and
by `\s` in a `re` pattern over `str` (the Unicode whitespace set): tab 9,
newline 10, vertical tab 11, form feed 12, carriage return 13, the file
and record separators 28-31, space 32, next line 133, no-break space 160,
and the Unicode space-category characters. -/
def pyIsSpace (c : Char) : Bool :=
  decide (c.toNat = 9 ∨ c.toNat = 10 ∨ c.toNat = 11 ∨ c.toNat = 12 ∨ c.toNat = 13
    ∨ (28 ≤ c.toNat ∧ c.toNat ≤ 32)
    ∨ c.toNat = 133 ∨ c.toNat = 160 ∨ c.toNat = 0x1680
    ∨ (0x2000 ≤ c.toNat ∧ c.toNat ≤ 0x200a)
    ∨ c.toNat = 0x2028 ∨ c.toNat = 0x2029 ∨ c.toNat = 0x202f
    ∨ c.toNat = 0x205f ∨ c.toNat = 0x3000)

/-- The regex class `[a-z]` (codes 97-122). -/
def isLowerAl (c : Char) : Bool := decide (97 ≤ c.toNat ∧ c.toNat ≤ 122)

/-- The regex class `[A-Z]` (codes 65-90). -/
def isUpperAl (c : Char) : Bool := decide (65 ≤ c.toNat ∧ c.toNat ≤ 90)

/-- The regex class `[0-9]` (codes 48-57). -/
def isDigitCh (c : Char) : Bool := decide (48 ≤ c.toNat ∧ c.toNat ≤ 57)

/-- The regex class `[a-zA-Z]`. -/
def isLetterCh (c : Char) : Bool := isLowerAl c || isUpperAl c

/-- The regex class `[a-zA-Z0-9]`. -/
def isAlnumCh (c : Char) : Bool := isLetterCh c || isDigitCh c

/-- The regex class `[A-Z0-9]`. -/
def isUpperDigit (c : Char) : Bool := isUpperAl c || isDigitCh c

/-- The regex class `[a-z0-9]`. -/
def isLowerDigit (c : Char) : Bool := isLowerAl c || isDigitCh c

/-- Word character for `\b` and `\w` (ASCII approximation of Python's
Unicode word class; every string appearing in a concrete evaluation below
is ASCII, where the two classes coincide). -/
def pyWordChar (c : Char) : Bool := isAlnumCh c || c = '_'

/-- ASCII lowercasing of one character, as `str.lower()` acts on ASCII
(all concretely evaluated strings are ASCII). -/
def lowerChar (c : Char) : Char :=
  if isUpperAl c then Char.ofNat (c.toNat + 32) else c

/-- Lowercase a character list. -/
def lowerL (cs : List Char) : List Char := cs.map lowerChar

/-! ## Generic Python string helpers (on `List Char`) -/

/-- Maximal runs of characters satisfying `p`; characters failing `p`
separate runs and are dropped.  `runsGo p [] cs` lists the maximal
`p`-runs of `cs` in order. -/
def runsGo (p : Char → Bool) (acc : List Char) : List Char → List (List Char)
  | [] => if acc.isEmpty then [] else [acc.reverse]
  | c :: rest =>
    if p c then runsGo p (c :: acc) rest
    else if acc.isEmpty then runsGo p [] rest
    else acc.reverse :: runsGo p [] rest

/-- Python `str.split()` with no separator: the maximal non-whitespace
runs, as strings. -/
def pyTokens (s : String) : List String :=
  (runsGo (fun c => !pyIsSpace c) [] s.data).map fun cs => String.mk cs

/-- Python `str.strip()` on a character list. -/
def pyStripL (cs : List Char) : List Char :=
  ((cs.dropWhile pyIsSpace).reverse.dropWhile pyIsSpace).reverse

/-- Python `str.strip()`. -/
def pyStrip (s : String) : String := String.mk (pyStripL s.data)

/-- Python `str.split('\n')` on a character list: the segments between
newline characters (empty segments included, always non-empty output). -/
def splitOnNl : List Char → List (List Char)
  | [] => [[]]
  | c :: rest =>
    if c = '\n' then [] :: splitOnNl rest
    else
      match splitOnNl rest with
      | h :: t => (c :: h) :: t
      | [] => [[c]]

/-- Python `str.split('\n')` giving strings. -/
def stringLinesNl (s : String) : List String :=
  (splitOnNl s.data).map fun cs => String.mk cs

/-- Python `'\n'.join` on character-list lines. -/
def joinNlL : List (List Char) → List Char
  | [] => []
  | [l] => l
  | l :: rest => l ++ '\n' :: joinNlL rest

/-- Python `'\n'.join` on strings. -/
def joinNl (ls : List String) : String := String.mk (joinNlL (ls.map String.data))

/-- Python `str.split('_')` on a character list. -/
def splitOnUnderscore : List Char → List (List Char)
  | [] => [[]]
  | '_' :: rest => [] :: splitOnUnderscore rest
  | c :: rest =>
    match splitOnUnderscore rest with
    | h :: t => (c :: h) :: t
    | [] => [[c]]

/-- Sublist (substring) containment, Python's `pat in s`. -/
def containsSub (pat : List Char) : List Char → Bool
  | [] => pat.isEmpty
  | c :: rest => pat.isPrefixOf (c :: rest) || containsSub pat rest

/-- Python `s.startswith(p)`. -/
def pyStartsWith (s p : String) : Bool := p.data.isPrefixOf s.data

/-- Python `s.endswith(p)`. -/
def pyEndsWith (s p : String) : Bool := p.data.isSuffixOf s.data

/-- Case-insensitive prefix test: `(?i)` on an ASCII-lowercase literal. -/
def startsWithCI (cs : List Char) (p : String) : Bool :=
  p.data.isPrefixOf (lowerL cs)

/-! ## Identifier tokenizer (`split_identifier_into_parts`, source lines 17-41)

The source splits on the compiled `SPLIT_REGEX`
`(?<=[a-z0-9])(?=[A-Z])|(?<=[A-Z0-9])(?=[A-Z][a-z])|(?<=[0-9])(?=[a-zA-Z])|`
`(?<=[A-Za-z])(?=[0-9])|(?<=[@$.'"])(?=[a-zA-Z0-9])|(?<=[a-zA-Z0-9])(?=[@$.'"])|_|\s+`.
The first six alternatives are zero-width boundaries between adjacent
characters (the second also looks one character further ahead); the last
two consume a single underscore respectively a maximal whitespace run.
At a position whose character is `_` or whitespace no lookaround
alternative can fire (underscore/whitespace belong to no lookahead
class), so alternative order never matters. -/

/-- The punctuation class `[@$.'"]` of `SPLIT_REGEX`. -/
def isSplitPunct (c : Char) : Bool :=
  c = '@' || c = '$' || c = '.' || c = apos || c = dquote

/-- Zero-width split point between adjacent characters `a` and `b`, with
`c?` the character after `b` (needed by the acronym alternative). -/
def isBoundary (a b : Char) (c? : Option Char) : Bool :=
  (isLowerDigit a && isUpperAl b)
  || (isUpperDigit a && isUpperAl b && (match c? with
      | some c => isLowerAl c
      | none => false))
  || (isDigitCh a && isLetterCh b)
  || (isLetterCh a && isDigitCh b)
  || (isSplitPunct a && isAlnumCh b)
  || (isAlnumCh a && isSplitPunct b)

/-- Scanner for `SPLIT_REGEX.split`.  `prev` is the character before the
scan position (`none` at the start), `acc` the current fragment reversed.
A whitespace character following another whitespace continues the same
`\s+` separator, producing no extra fragment. -/
def splitIdGo (prev : Option Char) (acc : List Char) : List Char → List (List Char)
  | [] => [acc.reverse]
  | b :: rest =>
    if b = '_' then acc.reverse :: splitIdGo (some b) [] rest
    else if pyIsSpace b then
      match prev with
      | some p =>
        if pyIsSpace p then splitIdGo (some b) acc rest
        else acc.reverse :: splitIdGo (some b) [] rest
      | none => acc.reverse :: splitIdGo (some b) [] rest
    else
      match prev with
      | some a =>
        if isBoundary a b rest.head? then acc.reverse :: splitIdGo (some b) [b] rest
        else splitIdGo (some b) (b :: acc) rest
      | none => splitIdGo (some b) [b] rest

/-- `SPLIT_REGEX.split(identifier)`. -/
def splitRegexSplit (identifier : String) : List (List Char) :=
  splitIdGo none [] identifier.data

/-- The filtered, lowercased fragments
`list(s.lower() for s in SPLIT_REGEX.split(identifier) if len(s)>0)`. -/
def split_identifier_fragments (identifier : String) : List String :=
  ((splitRegexSplit identifier).filter fun f => f.length > 0).map
    fun f => String.mk (lowerL f)

/-- Source `split_identifier_into_parts` (lines 33-41). -/
def split_identifier_into_parts (identifier : String) : List String :=
  let identifier_parts := split_identifier_fragments identifier
  if identifier_parts.isEmpty then [identifier] else identifier_parts

/-! ## Comment delimiter stripper (`remove_comment_delimiters`, source lines 81-99)

`clean_p1 = ([\s\/*=-]+)$|^([\s\/*!=#-]+)` is applied with `re.sub`,
which removes every non-overlapping match, scanning left to right.  The
second alternative can only match at position 0; the first must end at
`$`, i.e. at the end of the string or just before a final newline — and
since `\n` is itself in the class `[\s/*=-]`, a greedy run reaching the
position before a final newline always extends to the very end.  Hence
the matches are exactly: the whole string when it lies entirely in
`[\s/*=-]`; otherwise the maximal `[\s/*!=#-]` prefix run and the maximal
`[\s/*=-]` suffix run (which the prefix removal may already cover, the
classes being nested).  In every case the substitution equals "drop the
maximal suffix run of `[\s/*=-]`, then the maximal prefix run of
`[\s/*!=#-]`". -/

/-- The class `[\s\/*=-]` of `clean_p1`'s first alternative. -/
def isCleanP1End (c : Char) : Bool :=
  pyIsSpace c || c = '/' || c = '*' || c = '=' || c = '-'

/-- The class `[\s\/*!=#-]` of `clean_p1`'s second alternative. -/
def isCleanP1Start (c : Char) : Bool :=
  pyIsSpace c || c = '/' || c = '*' || c = '!' || c = '=' || c = '#' || c = '-'

/-- `re.sub(clean_p1, '', docstring)` (see the analysis above). -/
def subCleanP1 (cs : List Char) : List Char :=
  (((cs.reverse.dropWhile isCleanP1End).reverse).dropWhile isCleanP1Start)

/-- Python `str.replace('&nbsp;', ' ')`: non-overlapping, left to right. -/
def replaceNbsp : List Char → List Char
  | '&' :: 'n' :: 'b' :: 's' :: 'p' :: ';' :: rest => ' ' :: replaceNbsp rest
  | c :: rest => c :: replaceNbsp rest
  | [] => []

/-- The class `[\s*]` of `clean_p2`. -/
def isCleanP2 (c : Char) : Bool := pyIsSpace c || c = '*'

/-- The inner `func` of `remove_comment_delimiters`:
`t.strip().replace('&nbsp;', ' ')` then `re.sub('^([\s*]+)', '', t)`
(drop the leading `[\s*]` run) then `.strip()`. -/
def funcLine (t : List Char) : List Char :=
  pyStripL ((replaceNbsp (pyStripL t)).dropWhile isCleanP2)

/-- Source `remove_comment_delimiters` (lines 81-99): strip the border
runs, split on newlines, clean each line, keep the non-empty ones.
Despite its annotation the Python function returns a list of lines. -/
def remove_comment_delimiters (docstring : String) : List String :=
  ((splitOnNl (subCleanP1 docstring.data)).map funcLine).filterMap fun cur =>
    if cur.isEmpty then none else some (String.mk cur)

/-! ## Irrelevant-aside remover (`remove_unrelevant`, source lines 120-128)

`pattern1 = \((i\.e|e\.g|\beg|\bie).*?\)`, substituted by `''`.  The
pattern has no `(?i)` flag, so the markers are case-sensitive; `.` does
not match a newline, so a match never crosses a line break.  `\b` before
`eg`/`ie` always holds (the preceding `(` is a non-word character, `e`/`i`
are word characters).  The four marker alternatives are pairwise
exclusive on their second character, so no backtracking across
alternatives occurs, and the non-greedy `.*?\)` ends at the first `)`
reachable without crossing a newline. -/

/-- Does one of the markers `i.e`, `e.g`, `eg`, `ie` start here (in the
alternation order of the source pattern)? -/
def markerAt (cs : List Char) : Bool :=
  ['i', '.', 'e'].isPrefixOf cs || ['e', '.', 'g'].isPrefixOf cs
  || ['e', 'g'].isPrefixOf cs || ['i', 'e'].isPrefixOf cs

/-- Is there a `)` ahead before any newline (the non-greedy `.*?\)`)? -/
def hasClose : List Char → Bool
  | [] => false
  | c :: rest =>
    if c = ')' then true
    else if c = '\n' then false
    else hasClose rest

/-- Scanner for `re.sub(pattern1, '', ·)`.  In skip mode (`true`) the
characters of a matched aside up to its `)` are being discarded; skip
mode is only entered after `hasClose` has confirmed a reachable `)`. -/
def unrelGo : Bool → List Char → List Char
  | true, [] => []
  | true, c :: rest => if c = ')' then unrelGo false rest else unrelGo true rest
  | false, [] => []
  | false, c :: rest =>
    if c = '(' then
      if markerAt rest && hasClose rest then unrelGo true rest
      else c :: unrelGo false rest
    else c :: unrelGo false rest

/-- Source `remove_unrelevant` (lines 120-128). -/
def remove_unrelevant (docstring : String) : String :=
  String.mk (unrelGo false docstring.data)

/-! ## URL remover (`remove_url`, source lines 113-117)

`re.sub(r'http\S+', '', docstring)`: every occurrence of `http` followed
by at least one non-whitespace character is removed together with the
maximal following non-whitespace run.  A bare `http` before whitespace or
the end is kept (`\S+` needs one character).  After a removed match the
scan resumes at the terminating whitespace character, which cannot start
a new match; after a failed `http` prefix the following three characters
are `t`, `t`, `p` and cannot start a match either, so the scanner may
emit them wholesale. -/

/-- Scanner for `re.sub(r'http\S+', '', ·)`; mode `true` is inside the
`\S+` run being discarded. -/
def removeUrlGo : Bool → List Char → List Char
  | true, [] => []
  | true, c :: rest =>
    if pyIsSpace c then c :: removeUrlGo false rest else removeUrlGo true rest
  | false, 'h' :: 't' :: 't' :: 'p' :: c :: rest =>
    if pyIsSpace c then 'h' :: 't' :: 't' :: 'p' :: removeUrlGo false (c :: rest)
    else removeUrlGo true rest
  | false, c :: rest => c :: removeUrlGo false rest
  | false, [] => []

/-- Source `remove_url` (lines 113-117), with the default `replace=''`. -/
def remove_url (docstring : String) : String :=
  String.mk (removeUrlGo false docstring.data)

/-! ## Noise-detection battery (source lines 183-314) -/

/-- Source `check_docstring_length` (lines 183-188):
`doc_tokens = docstring.strip().split()`, noise iff `len <= 3 or len >= 256`. -/
def check_docstring_length (docstring : String) : Bool :=
  let doc_tokens := pyTokens (pyStrip docstring)
  decide (doc_tokens.length ≤ 3) || decide (256 ≤ doc_tokens.length)

/-- Source `check_docstring_literal` (lines 191-198): noise iff the text
is not pure ASCII or `re.search('[a-zA-Z]')` finds no letter. -/
def check_docstring_literal (docstring : String) : Bool :=
  if !(docstring.data.all fun c => c.toNat ≤ 127) then true
  else if !(docstring.data.any isLetterCh) then true
  else false

/-- The `\b` assertion at a position whose preceding character is a word
character: it holds iff the following text is empty or starts with a
non-word character. -/
def wordBdryNext : List Char → Bool
  | [] => true
  | c :: _ => !pyWordChar c

/-- Anchored case-insensitive word `w` followed by `\b` (for the simple
alternatives of the question pattern; `w` ends in a word character). -/
def prefixBdry (cs : List Char) (w : String) : Bool :=
  w.data.isPrefixOf (lowerL cs) && wordBdryNext (cs.drop w.data.length)

/-- The alternative `what\'?s?\b` of the question pattern: `what` plus an
optional apostrophe, an optional `s`, then a word boundary (whose
polarity depends on whether the last consumed character is the
apostrophe). -/
def whatCase (cs : List Char) : Bool :=
  ("what".data.isPrefixOf (lowerL cs)) &&
    (wordBdryNext (cs.drop 4)
      || ((cs.drop 4).head? = some apos
            && (match cs.drop 5 with
                | c :: _ => pyWordChar c
                | [] => false))
      || (((lowerL cs).drop 4).head? = some 's' && wordBdryNext (cs.drop 5))
      || ((cs.drop 4).head? = some apos && ((lowerL cs).drop 5).head? = some 's'
            && wordBdryNext (cs.drop 6)))

/-- `pattern.search` of `(?i)^(why\b|how\b|what\'?s?\b|where\b|is\b|are\b)`. -/
def questionSearch (cs : List Char) : Bool :=
  prefixBdry cs "why" || prefixBdry cs "how" || whatCase cs
  || prefixBdry cs "where" || prefixBdry cs "is" || prefixBdry cs "are"

/-- Source `check_docstring_contain_question` (lines 201-207).  The first
operand evaluated is `docstring[-1]`, which raises `IndexError` on the
empty string; this partiality is modelled with `Option`. -/
def check_docstring_contain_question (docstring : String) : Option Bool :=
  match docstring.data.getLast? with
  | none => none
  | some c => some (c = '?' || questionSearch docstring.data)

/-- The p1 alternative `Missing[\s\S]+Description` of
`check_docstring_underdevelopment`, anchored and case-insensitive:
`missing`, at least one arbitrary character, then `description`. -/
def missingDescription (l : List Char) : Bool :=
  "missing".data.isPrefixOf l && containsSub "description".data (l.drop 8)

/-- The p1 alternative `Insert the method\'s description here` (built by
concatenation to keep the apostrophe out of a string literal). -/
def insertDescriptionPat : List Char :=
  "insert the method".data ++ apos :: "s description here".data

/-- The p3 pattern `^[A-Za-z]+(\([A-Za-z_]+\))?:` of
`check_docstring_underdevelopment`.  The leading letter run is maximal
(a shorter run would put a letter where `(` or `:` is required), the
optional group needs at least one `[A-Za-z_]` character. -/
def labelColon (cs : List Char) : Bool :=
  match cs with
  | [] => false
  | c :: _ =>
    isLetterCh c &&
      (match cs.dropWhile isLetterCh with
       | ':' :: _ => true
       | '(' :: r2 =>
         (match r2 with
          | d :: _ =>
            (isLetterCh d || d = '_') &&
              (match r2.dropWhile fun e => isLetterCh e || e = '_' with
               | ')' :: ':' :: _ => true
               | _ => false)
          | [] => false)
       | _ => false)

/-- Opening brace character (code 123). -/
def obrace : Char := Char.ofNat 123

/-- Closing brace character (code 125). -/
def cbrace : Char := Char.ofNat 125

/-- One alternative of the p5 pattern: `re.fullmatch` of `\(.+\)` (resp.
square or curly brackets): the whole string is the opening character, at
least one non-newline character, and the closing character (`.` cannot
cross a newline, and `.+` must cover the entire interior). -/
def fullBracket (o cl : Char) (cs : List Char) : Bool :=
  match cs with
  | [] => false
  | c :: rest =>
    c = o && decide (2 ≤ rest.length)
      && (match rest.getLast? with
          | some d => d = cl
          | none => false)
      && rest.dropLast.all fun e => e ≠ '\n'

/-- Source `check_docstring_underdevelopment` (lines 210-223). -/
def check_docstring_underdevelopment (docstring : String) : Bool :=
  let cs := docstring.data
  let l := lowerL cs
  let p1 :=
    "description of the method".data.isPrefixOf l
    || "not yet documented".data.isPrefixOf l
    || missingDescription l
    || "not in use".data.isPrefixOf l
    || insertDescriptionPat.isPrefixOf l
    || "no implementation provided".data.isPrefixOf l
    || "(non-javadoc)".data.isPrefixOf l
  let p2 :=
    "todo".data.isPrefixOf l || "deprecate".data.isPrefixOf l
    || "copyright".data.isPrefixOf l || "fixme".data.isPrefixOf l
  let p4full := !cs.isEmpty && cs.all fun c => isUpperAl c || c = ' '
  let p5full :=
    fullBracket '(' ')' cs || fullBracket '[' ']' cs || fullBracket obrace cbrace cs
  if p1 || p2 || labelColon cs then true
  else if p4full || p5full then true
  else false

/-- Tail matcher for the p1 pattern `(?i)@[a-zA-Z]*generated\b` of
`check_docstring_autogenerated`: after the `@`, zero or more letters,
then `generated` and a word boundary. -/
def autogenTagFrom : List Char → Bool
  | [] => false
  | c :: rest =>
    ("generated".data.isPrefixOf (lowerL (c :: rest)) && wordBdryNext ((c :: rest).drop 9))
    || (isLetterCh c && autogenTagFrom rest)

/-- `p1.search`: an `@[a-zA-Z]*generated\b` tag anywhere in the text. -/
def hasAutogenTag : List Char → Bool
  | [] => false
  | '@' :: rest => autogenTagFrom rest || hasAutogenTag rest
  | _ :: rest => hasAutogenTag rest

/-- Source `check_docstring_autogenerated` (lines 226-240); the
`docstring is not None` guard is always true for a string, and the
control flow reduces to the disjunction of the four searches. -/
def check_docstring_autogenerated (docstring : String) : Bool :=
  let cs := docstring.data
  let l := lowerL cs
  hasAutogenTag cs
  || ("auto".data.isPrefixOf l
        && (match cs.drop 4 with
            | c :: _ => c = '-' || pyIsSpace c
            | [] => false)
        && "generated".data.isPrefixOf ((lowerL cs).drop 5))
  || "this method initializes".data.isPrefixOf l
  || "this method was generated by".data.isPrefixOf l

/-- Source `check_contain_little_single_char` (lines 243-250):
`"".join(docstring.strip().split())` removes every whitespace character;
noise iff at most one character remains or fewer than 70% of the
remaining characters are letters (`a/n < 0.7` modelled exactly as
`10*a < 7*n`). -/
def check_contain_little_single_char (docstring : String) : Bool :=
  let cs := (pyStrip docstring).data.filter fun c => !pyIsSpace c
  if cs.length ≤ 1 then true
  else decide (10 * (cs.filter isLetterCh).length < 7 * cs.length)

/-- One camelCase match inside a maximal `[A-Za-z0-9]` run: the pattern
`[A-Z]([A-Z0-9]*[a-z][a-z0-9]*[A-Z]|[a-z0-9]*[A-Z][A-Z0-9]*[a-z])[A-Za-z0-9]*`
matches somewhere in the run iff some uppercase letter is followed (within
the run) by both a lowercase and an uppercase letter: the group's first
alternative demands a capital after the first lowercase, the second a
lowercase after the first capital, and inside an alphanumeric run these
two cases exactly cover "both cases occur after the leading capital".
The greedy `[A-Za-z0-9]*` tail extends every match to the end of its run,
so each run yields at most one `findall` match. -/
def camelRunMatch : List Char → Bool
  | [] => false
  | c :: rest =>
    (isUpperAl c && rest.any isLowerAl && rest.any isUpperAl) || camelRunMatch rest

/-- Source `check_contain_many_special_case` (lines 272-282).  A
`\w+_\w+` `findall` match exists in a maximal `\w` run iff the run has an
underscore in its interior, and the greedy parts then extend the match to
the whole run, so each run yields at most one match. -/
def check_contain_many_special_case (docstring : String) : Bool :=
  let total_words := pyTokens (pyStrip docstring)
  if total_words.length = 0 then true
  else
    let sneak_cases :=
      (runsGo pyWordChar [] docstring.data).countP fun r =>
        ((r.drop 1).dropLast).contains '_'
    let camelCases := (runsGo isAlnumCh [] docstring.data).countP camelRunMatch
    decide (10 * (sneak_cases + camelCases) > 3 * total_words.length)

/-- Multiplicity of the most frequent character
(`Counter(...).most_common()[0][1]`). -/
def maxCharCount (cs : List Char) : Nat :=
  (cs.map fun c => cs.count c).foldr max 0

/-- Source `check_contain_many_repeated_word` (lines 285-292): with all
whitespace removed, noise iff more than 30 characters remain and the most
frequent character exceeds 40% of them (`and` short-circuits, so
`most_common()` is never reached on an empty string). -/
def check_contain_many_repeated_word (docstring : String) : Bool :=
  let cs := (pyStrip docstring).data.filter fun c => !pyIsSpace c
  decide (30 < cs.length) && decide (10 * maxCharCount cs > 4 * cs.length)

/-- Python `str.replace("DD", "dd")`: non-overlapping, left to right. -/
def replaceDD : List Char → List Char
  | 'D' :: 'D' :: rest => 'd' :: 'd' :: replaceDD rest
  | c :: rest => c :: replaceDD rest
  | [] => []

/-- Python `str.replace("MM", "mm")`. -/
def replaceMM : List Char → List Char
  | 'M' :: 'M' :: rest => 'm' :: 'm' :: replaceMM rest
  | c :: rest => c :: replaceMM rest
  | [] => []

/-- Python `str.replace("YY", "yy")`. -/
def replaceYY : List Char → List Char
  | 'Y' :: 'Y' :: rest => 'y' :: 'y' :: replaceYY rest
  | c :: rest => c :: replaceYY rest
  | [] => []

/-- Python `str.replace("YYYY", "yyyy")` (a no-op after `replaceYY`, kept
because the source lists all four patterns). -/
def replaceYYYY : List Char → List Char
  | 'Y' :: 'Y' :: 'Y' :: 'Y' :: rest => 'y' :: 'y' :: 'y' :: 'y' :: replaceYYYY rest
  | c :: rest => c :: replaceYYYY rest
  | [] => []

/-- The date-format normalization loop of
`check_contain_many_uppercase_word`: sequential replaces in source order
`DD`, `MM`, `YY`, `YYYY`. -/
def dateNormalized (cs : List Char) : List Char :=
  replaceYYYY (replaceYY (replaceMM (replaceDD cs)))

/-- Number of `findall` matches of `[A-Z][A-Z0-9]+`.  Mode `true` is
inside the greedy `[A-Z0-9]+` tail of a counted match; a character that
ends such a tail is not in `[A-Z0-9]`, hence not uppercase, and cannot
start the next match, so it is consumed directly. -/
def countUW : Bool → List Char → Nat
  | _, [] => 0
  | true, c :: rest => if isUpperDigit c then countUW true rest else countUW false rest
  | false, c1 :: c2 :: rest =>
    if isUpperAl c1 && isUpperDigit c2 then 1 + countUW true rest
    else countUW false (c2 :: rest)
  | false, [_] => 0

/-- Source `check_contain_many_uppercase_word` (lines 295-303). -/
def check_contain_many_uppercase_word (docstring : String) : Bool :=
  let ds := pyStripL (dateNormalized docstring.data)
  let uppercase_words := countUW false ds
  let docstring_tokens := pyTokens (pyStrip (String.mk ds))
  decide (4 < docstring_tokens.length)
    && decide (10 * uppercase_words > 3 * docstring_tokens.length)

/-- Source `check_contain_many_long_word` (lines 306-314): split tokens
further on underscores; noise iff there is no token at all or some
fragment is longer than 30 characters. -/
def check_contain_many_long_word (docstring : String) : Bool :=
  let docstring_tokens := pyTokens (pyStrip docstring)
  if docstring_tokens.isEmpty then true
  else
    let fragments := docstring_tokens.flatMap fun t => splitOnUnderscore (pyStripL t.data)
    decide (30 < (fragments.map List.length).foldr max 0)

/-! ## Quality-gate and cleaning orchestrators (source lines 345-424) -/

/-- The active battery of `check_docstring` (lines 349-377), as (tag,
predicate) pairs in source order; `check_docstring_length` and
`check_contain_many_special_char` are commented out in the source.  The
question predicate is partial on the empty string, but the orchestrator
only applies the battery to non-empty lines (lemma
`contain_question_isSome_of_ne_empty`), so the `getD false` default is
unreachable there. -/
def check_docstring_checks : List (String × (String → Bool)) :=
  [("check_docstring_literal", check_docstring_literal),
   ("check_docstring_contain_question",
     fun s => (check_docstring_contain_question s).getD false),
   ("check_docstring_underdevelopment", check_docstring_underdevelopment),
   ("check_docstring_autogenerated", check_docstring_autogenerated),
   ("check_contain_little_single_char", check_contain_little_single_char),
   ("check_contain_many_special_case", check_contain_many_special_case),
   ("check_contain_many_repeated_word", check_contain_many_repeated_word),
   ("check_contain_many_uppercase_word", check_contain_many_uppercase_word),
   ("check_contain_many_long_word", check_contain_many_long_word)]

/-- Source `check_docstring` (lines 345-394): an empty line is reported
as noise with no fired tags; otherwise every predicate runs, the result
is their disjunction, and each firing predicate contributes the tag
`"<name> docstring"`. -/
def check_docstring (docstring : String) : Bool × List String :=
  if docstring = "" then (true, [])
  else
    let fired := check_docstring_checks.filter fun p => p.2 docstring
    (!fired.isEmpty, fired.map fun p => "<" ++ p.1 ++ "> " ++ docstring)

/-- The per-line loop of `clean_docstring` (lines 407-414), parameterized
by the external markup stripper `F` (`remove_special_tag`, which
delegates to BeautifulSoup and is an external collaborator).  Returns the
kept lines and the diagnostics of the last evaluated line. -/
def clean_lines (F : String → String) : List String → List String × List String
  | [] => ([], [])
  | l :: rest =>
    let checked := check_docstring (F l)
    if checked.1 then ([], checked.2)
    else
      match rest with
      | [] => ([remove_url (F l)], checked.2)
      | _ :: _ => (remove_url (F l) :: (clean_lines F rest).1, (clean_lines F rest).2)

/-- Lines 402-405 of `clean_docstring`: join the delimiter-stripped
lines, remove asides, strip, split on newlines. -/
def pipelineLines (docstring : String) : List String :=
  stringLinesNl (pyStrip (remove_unrelevant (joinNl (remove_comment_delimiters docstring))))

/-- Source `clean_docstring` (lines 397-424), parameterized by the
external markup stripper `F`.  The source's final guard
`clean_docstring == ''` compares the function object itself with a
string and is always false, so only `check_docstring_length` decides
rejection (an empty cleaned string has 0 tokens and is still rejected). -/
def clean_docstring (F : String → String) (docstring : String) :
    Option String × List String :=
  let r := clean_lines F (pipelineLines docstring)
  let cleaned := pyStrip (joinNl r.1)
  if check_docstring_length cleaned then (none, r.2) else (some cleaned, r.2)

/-- The cleaned string `clean_docstring` builds before its final length
validation (joined kept lines, stripped). -/
def cleanedJoined (F : String → String) (docstring : String) : String :=
  pyStrip (joinNl (clean_lines F (pipelineLines docstring)).1)

/-! ## Function admissibility filter (source lines 44-78, 131-163, 317-342) -/

-- Equality of `Except` results is decidable componentwise.
deriving instance DecidableEq for Except

mutual
/-- External `tree_sitter.Node`, abstracted to what the source reads: a
kind string, `start_point`/`end_point` (row, column) pairs, and children
(a mutually defined forest, so that subtree recursion stays structural). -/
inductive TSNode : Type where
  | mk : String → Nat × Nat → Nat × Nat → TSForest → TSNode
/-- Child list of a `TSNode`. -/
inductive TSForest : Type where
  | nil : TSForest
  | cons : TSNode → TSForest → TSForest
end

/-- Node kind (`node.type`). -/
def TSNode.kind : TSNode → String
  | .mk t _ _ _ => t

/-- `node.start_point`. -/
def TSNode.startPoint : TSNode → Nat × Nat
  | .mk _ sp _ _ => sp

/-- `node.end_point`. -/
def TSNode.endPoint : TSNode → Nat × Nat
  | .mk _ _ ep _ => ep

mutual
/-- Modelled from the spec: `traverse_type` is imported from
`src/utils/parser/language_parser`, which is not under `src/`; per the
spec the upstream parser exposes "recursive subtree traversal filtered by
a node-kind marker".  Collects every node of the subtree whose kind is in
`kinds`. -/
def traverse_type (kinds : List String) : TSNode → List TSNode
  | .mk t sp ep cs =>
    (if t ∈ kinds then [TSNode.mk t sp ep cs] else []) ++ traverseForest kinds cs
/-- `traverse_type` over a child forest. -/
def traverseForest (kinds : List String) : TSForest → List TSNode
  | .nil => []
  | .cons n rest => traverse_type kinds n ++ traverseForest kinds rest
end

/-- Source `check_node_error` (lines 44-61): does the subtree contain an
`ERROR` node?  (The `isinstance` guard cannot fire for a `TSNode`.) -/
def check_node_error (node : TSNode) : Bool :=
  decide ((traverse_type ["ERROR"] node).length > 0)

/-- Source `get_node_length` (lines 64-78): `end_point[0] - start_point[0]`
as a Python integer (modelled with `Int`; rows are naturals). -/
def get_node_length (node : TSNode) : Int :=
  (node.endPoint.1 : Int) - (node.startPoint.1 : Int)

/-- Source `check_function_empty` (lines 153-163): returns `false` when
the node spans at most 3 lines and `true` otherwise (note the polarity:
the commented-out body and the caller's docstring suggest the opposite
was intended; see the C1 analysis). -/
def check_function_empty (node : TSNode) : Bool :=
  if get_node_length node ≤ 3 then false else true

/-- Source `check_black_node` (lines 131-150).  The first statement
executed is `black_keywords.extend(exclude_list)`; when the caller leaves
`exclude_list` at its default `None`, `list.extend(None)` raises
`TypeError` before any name check runs, modelled as `Except.error`.
`keyword in node_name` is substring containment. -/
def check_black_node (node_name : String) (exclude_list : Option (List String)) :
    Except String Bool :=
  match exclude_list with
  | none => Except.error "TypeError: NoneType object is not iterable"
  | some ex =>
    let black_keywords :=
      ["test_", "Test_", "_test", "toString", "constructor", "Constructor"] ++ ex
    if pyStartsWith node_name "__" && pyEndsWith node_name "__" then Except.ok true
    else if pyStartsWith node_name "set" || pyStartsWith node_name "get" then
      Except.ok true
    else if black_keywords.any fun keyword => containsSub keyword.data node_name.data then
      Except.ok true
    else Except.ok false

/-- Source `check_function` (lines 317-342); `node_metadata` is consulted
only for `node_metadata['identifier']`, passed here directly, and the
`is_class` parameter is unused in the source.  A `TypeError` escaping
`check_black_node` propagates. -/
def check_function (node : TSNode) (identifier : String)
    (exclude_list : Option (List String)) : Except String Bool :=
  if check_node_error node then Except.ok false
  else
    match check_black_node identifier exclude_list with
    | Except.error e => Except.error e
    | Except.ok b =>
      if b then Except.ok false
      else if check_function_empty node then Except.ok false
      else Except.ok true

/-- Source `check_autogenerated_by_code` (lines 166-180).  Lines 167-170
bind `threshold` and the joined, lowercased identifier split; line 171
then reads the local variable `comment` before any assignment to it, so
every invocation raises `UnboundLocalError` there, regardless of the
argument values — neither parameter is ever bound to the comparison
variable.  The preceding pure computations are kept to mirror the order
of execution. -/
def check_autogenerated_by_code (raw_code identifier : String) : Except String Bool :=
  let _threshold := (4, 10)
  let fn_name_splited := " ".intercalate (split_identifier_into_parts identifier)
  let _fn_lowered := String.mk (lowerL fn_name_splited.data)
  Except.error "UnboundLocalError: local variable comment referenced before assignment"

/-! ## Spec-side definitions for the many-uppercase-word claim (C9) -/

/-- Does the text contain an uppercase letter immediately followed by an
uppercase letter or digit (one `[A-Z][A-Z0-9]+` match)? -/
def hasCapsPair : List Char → Bool
  | a :: b :: rest => (isUpperAl a && isUpperDigit b) || hasCapsPair (b :: rest)
  | _ => false

/-- Definition following the claim C9 wording: after the date-format
normalization, noise iff the whitespace-token count exceeds 4 and the
fraction of whitespace tokens matching an all-caps pattern (at least 2
uppercase letters/digits) exceeds 0.3 — i.e. the matching unit is the
token. -/
def claimed_many_uppercase_word (docstring : String) : Bool :=
  let ds := pyStripL (dateNormalized docstring.data)
  let docstring_tokens := pyTokens (pyStrip (String.mk ds))
  decide (4 < docstring_tokens.length)
    && decide (10 * (docstring_tokens.countP fun t => hasCapsPair t.data)
        > 3 * docstring_tokens.length)

/-- Number of maximal `[A-Z0-9]` runs containing an uppercase letter
before their last character — the declarative count of `findall` matches
of `[A-Z][A-Z0-9]+` (each such run hosts exactly one match, which the
greedy tail extends to the run's end). -/
def upperRunCount (cs : List Char) : Nat :=
  (runsGo isUpperDigit [] cs).countP fun r => r.dropLast.any isUpperAl

/-- Definition following the amended claim C9: noise iff the token count
exceeds 4 and the ratio of the number of all-caps matches found anywhere
in the normalized text (counted per match, not per token) to the token
count exceeds 0.3. -/
def amended_many_uppercase_word (docstring : String) : Bool :=
  let ds := pyStripL (dateNormalized docstring.data)
  let docstring_tokens := pyTokens (pyStrip (String.mk ds))
  decide (4 < docstring_tokens.length)
    && decide (10 * upperRunCount ds > 3 * docstring_tokens.length)

/-! ## Helper lemmas -/

/-- Unfolding lemma for `runsGo` with a non-empty accumulator: the
current run closes with the maximal `p`-prefix of the remaining input. -/
theorem runsGo_acc (p : Char → Bool) :
    ∀ (cs acc : List Char), acc ≠ [] →
      runsGo p acc cs = (acc.reverse ++ cs.takeWhile p) :: runsGo p [] (cs.dropWhile p) := by
  intro cs
  induction cs with
  | nil =>
    intro acc hacc
    simp [runsGo, List.isEmpty_iff, hacc]
  | cons c rest ih =>
    intro acc hacc
    by_cases hc : p c
    · rw [runsGo, if_pos hc, ih (c :: acc) (by simp)]
      simp [hc]
    · rw [runsGo, if_neg hc]
      have : acc.isEmpty = false := by simpa [List.isEmpty_iff] using hacc
      rw [this]
      simp only [Bool.false_eq_true, if_false]
      have hstep : runsGo p [] (c :: rest) = runsGo p [] rest := by
        simp [runsGo, hc]
      simp [List.takeWhile_cons, List.dropWhile_cons, hc, hstep]

/-- `runsGo` on a head satisfying `p`. -/
theorem runsGo_cons_pos (p : Char → Bool) (c : Char) (rest : List Char) (hc : p c) :
    runsGo p [] (c :: rest)
      = (c :: rest.takeWhile p) :: runsGo p [] (rest.dropWhile p) := by
  rw [runsGo, if_pos hc, runsGo_acc p rest [c] (by simp)]
  simp

/-- `runsGo` on a head failing `p`. -/
theorem runsGo_cons_neg (p : Char → Bool) (c : Char) (rest : List Char) (hc : ¬ p c) :
    runsGo p [] (c :: rest) = runsGo p [] rest := by
  simp [runsGo, hc]

/-- The head of `dropWhile p` fails `p`. -/
theorem dropWhile_head_false (p : Char → Bool) :
    ∀ (l : List Char), (l.dropWhile p).headI ∈ l.dropWhile p →
      ∀ x r, l.dropWhile p = x :: r → p x = false := by
  intro l _ x r hxr
  have := List.head_dropWhile_not p (l := l) (w := by simp [hxr])
  simpa [hxr] using this

/-- Uppercase letters are in `[A-Z0-9]`. -/
theorem isUpperDigit_of_isUpperAl {c : Char} (h : isUpperAl c = true) :
    isUpperDigit c = true := by
  simp [isUpperDigit, h]

/-- The `findall` count of `[A-Z][A-Z0-9]+` computed by the scanner
`countUW` equals the declarative per-run count `upperRunCount`. -/
theorem countUW_eq_upperRunCount : ∀ cs, countUW false cs = upperRunCount cs := by
  have key : ∀ (n : Nat) (cs : List Char), cs.length ≤ n →
      countUW false cs = upperRunCount cs ∧
      countUW true cs = upperRunCount ((cs.dropWhile isUpperDigit).tail) := by
    intro n
    induction n with
    | zero =>
      intro cs hlen
      have : cs = [] := List.length_eq_zero.mp (Nat.le_zero.mp hlen)
      subst this
      constructor <;> simp [countUW, upperRunCount, runsGo]
    | succ n ih =>
      intro cs hlen
      constructor
      · -- false mode
        match cs with
        | [] => simp [countUW, upperRunCount, runsGo]
        | [c] =>
          by_cases hc : isUpperDigit c = true
          · simp [countUW, upperRunCount, runsGo, hc, List.countP_cons]
          · simp [countUW, upperRunCount, runsGo, hc]
        | c1 :: c2 :: rest =>
          have hr2 : rest.length ≤ n := by
            have := hlen; simp at this; omega
          have hr1 : (c2 :: rest).length ≤ n := by
            have := hlen; simp at this; simp; omega
          by_cases hmain : isUpperAl c1 = true ∧ isUpperDigit c2 = true
          · obtain ⟨h1, h2⟩ := hmain
            have h1d : isUpperDigit c1 = true := isUpperDigit_of_isUpperAl h1
            have lhs : countUW false (c1 :: c2 :: rest) = 1 + countUW true rest := by
              simp [countUW, h1, h2]
            rw [lhs, (ih rest hr2).2]
            have hdropEq : upperRunCount ((rest.dropWhile isUpperDigit).tail)
                = upperRunCount (rest.dropWhile isUpperDigit) := by
              cases hdrop : rest.dropWhile isUpperDigit with
              | nil => rfl
              | cons x r =>
                have hx : isUpperDigit x = false := by
                  have hne : rest.dropWhile isUpperDigit ≠ [] := by simp [hdrop]
                  have := List.head_dropWhile_not isUpperDigit rest hne
                  simpa [hdrop] using this
                simp only [List.tail_cons, upperRunCount]
                rw [runsGo_cons_neg _ _ _ (by simp [hx])]
            rw [hdropEq]
            simp only [upperRunCount]
            rw [runsGo_cons_pos _ _ _ h1d]
            have htw : (c2 :: rest).takeWhile isUpperDigit
                = c2 :: rest.takeWhile isUpperDigit := by
              simp [List.takeWhile_cons, h2]
            have hdw : (c2 :: rest).dropWhile isUpperDigit
                = rest.dropWhile isUpperDigit := by
              simp [List.dropWhile_cons, h2]
            rw [htw, hdw, List.countP_cons]
            have hq : (c1 :: c2 :: rest.takeWhile isUpperDigit).dropLast.any isUpperAl
                = true := by
              simp [h1]
            rw [hq]
            simp [Nat.add_comm]
          · have hfalse : (isUpperAl c1 && isUpperDigit c2) = false := by
              cases hA : isUpperAl c1 <;> cases hB : isUpperDigit c2 <;> simp_all
            have lhs : countUW false (c1 :: c2 :: rest) = countUW false (c2 :: rest) := by
              simp [countUW, hfalse]
            rw [lhs, (ih (c2 :: rest) hr1).1]
            by_cases h1d : isUpperDigit c1 = true
            · by_cases h2d : isUpperDigit c2 = true
              · -- the run joins `c1` and `c2`, so `c1` is not uppercase
                have h1u : isUpperAl c1 = false := by
                  cases hA : isUpperAl c1
                  · rfl
                  · exact absurd ⟨hA, h2d⟩ hmain
                simp only [upperRunCount]
                rw [runsGo_cons_pos _ _ _ h1d, runsGo_cons_pos _ _ _ h2d]
                have htw : (c2 :: rest).takeWhile isUpperDigit
                    = c2 :: rest.takeWhile isUpperDigit := by
                  simp [List.takeWhile_cons, h2d]
                have hdw : (c2 :: rest).dropWhile isUpperDigit
                    = rest.dropWhile isUpperDigit := by
                  simp [List.dropWhile_cons, h2d]
                rw [htw, hdw, List.countP_cons, List.countP_cons]
                have hsame : (c1 :: c2 :: rest.takeWhile isUpperDigit).dropLast.any isUpperAl
                    = (c2 :: rest.takeWhile isUpperDigit).dropLast.any isUpperAl := by
                  simp [h1u]
                rw [hsame]
              · -- `c1` forms a one-character run, contributing nothing
                simp only [upperRunCount]
                rw [runsGo_cons_pos _ _ _ h1d]
                have htw : (c2 :: rest).takeWhile isUpperDigit = [] := by
                  simp [List.takeWhile_cons, h2d]
                have hdw : (c2 :: rest).dropWhile isUpperDigit = c2 :: rest := by
                  simp [List.dropWhile_cons, h2d]
                rw [htw, hdw, List.countP_cons]
                simp
            · simp only [upperRunCount]
              rw [runsGo_cons_neg isUpperDigit c1 (c2 :: rest) (by simp [h1d])]
      · -- true mode
        match cs with
        | [] => simp [countUW, upperRunCount, runsGo]
        | c :: rest =>
          have hr : rest.length ≤ n := by have := hlen; simp at this; omega
          by_cases hc : isUpperDigit c = true
          · have hstep : countUW true (c :: rest) = countUW true rest := by
              simp [countUW, hc]
            rw [hstep, (ih rest hr).2]
            simp [List.dropWhile_cons, hc]
          · have hstep : countUW true (c :: rest) = countUW false rest := by
              simp [countUW, hc]
            rw [hstep, (ih rest hr).1]
            simp [List.dropWhile_cons, hc]
  intro cs
  exact (key cs.length cs le_rfl).1

/-- `pyStripL` phrased with Mathlib's `rdropWhile`. -/
theorem pyStripL_eq_rdrop (cs : List Char) :
    pyStripL cs = List.rdropWhile pyIsSpace (cs.dropWhile pyIsSpace) := rfl

/-- Stripping twice equals stripping once. -/
theorem pyStripL_idem (cs : List Char) : pyStripL (pyStripL cs) = pyStripL cs := by
  rw [pyStripL_eq_rdrop, pyStripL_eq_rdrop]
  set X := cs.dropWhile pyIsSpace with hX
  have hdropX : X.dropWhile pyIsSpace = X := List.dropWhile_idempotent pyIsSpace cs
  have hpre : List.rdropWhile pyIsSpace X <+: X := List.rdropWhile_prefix pyIsSpace X
  have hstep : (List.rdropWhile pyIsSpace X).dropWhile pyIsSpace
      = List.rdropWhile pyIsSpace X := by
    cases hY : List.rdropWhile pyIsSpace X with
    | nil => rfl
    | cons y ys =>
      obtain ⟨t, ht⟩ := hpre
      have hXshape : X = y :: (ys ++ t) := by
        rw [← ht, hY]; simp
      have hy : pyIsSpace y = false := by
        by_contra hcon
        have hy' : pyIsSpace y = true := by simpa using hcon
        have h1 : List.dropWhile pyIsSpace X = List.dropWhile pyIsSpace (ys ++ t) := by
          rw [hXshape]
          simp [List.dropWhile_cons, hy']
        rw [hdropX, hXshape] at h1
        have hlen := congrArg List.length h1
        have hsplit := congrArg List.length
          (List.takeWhile_append_dropWhile (p := pyIsSpace) (l := ys ++ t))
        simp only [List.length_cons, List.length_append] at hlen hsplit
        omega
      simp [List.dropWhile_cons, hy]
  rw [hstep, List.rdropWhile_idempotent]

/-- Stripping twice equals stripping once (string level). -/
theorem pyStrip_idem (s : String) : pyStrip (pyStrip s) = pyStrip s := by
  simp [pyStrip, pyStripL_idem]

/-- `splitOnNl` never returns the empty list. -/
theorem splitOnNl_ne_nil : ∀ cs : List Char, splitOnNl cs ≠ [] := by
  intro cs
  induction cs with
  | nil => simp [splitOnNl]
  | cons c rest ih =>
    by_cases hc : c = '\n'
    · simp [splitOnNl, hc]
    · rw [splitOnNl, if_neg hc]
      cases h : splitOnNl rest with
      | nil => exact absurd h ih
      | cons x t => simp

/-- Unfolding of `joinNlL` on a cons. -/
theorem joinNlL_cons (x : List Char) (xs : List (List Char)) :
    joinNlL (x :: xs) = x ++ (if xs.isEmpty then [] else '\n' :: joinNlL xs) := by
  cases xs with
  | nil => simp [joinNlL]
  | cons y ys => simp [joinNlL]

/-- Joining the newline-split segments restores the original characters. -/
theorem joinNlL_splitOnNl : ∀ cs : List Char, joinNlL (splitOnNl cs) = cs := by
  intro cs
  induction cs with
  | nil => simp [splitOnNl, joinNlL]
  | cons c rest ih =>
    by_cases hc : c = '\n'
    · subst hc
      rw [splitOnNl, if_pos rfl, joinNlL_cons]
      have : (splitOnNl rest).isEmpty = false := by
        cases h : splitOnNl rest with
        | nil => exact absurd h (splitOnNl_ne_nil rest)
        | cons x t => rfl
      simp [this, ih]
    · rw [splitOnNl, if_neg hc]
      cases h : splitOnNl rest with
      | nil => exact absurd h (splitOnNl_ne_nil rest)
      | cons x t =>
        rw [h] at ih
        cases t with
        | nil => simpa [joinNlL] using ih
        | cons z zs =>
          rw [joinNlL_cons] at ih ⊢
          simp only [List.isEmpty_cons] at ih ⊢
          simpa using ih

/-- A `String.mk` of a string's own characters is the string. -/
theorem string_mk_data (s : String) : String.mk s.data = s := rfl

/-- Joining the lines of a string restores the string. -/
theorem joinNl_stringLinesNl (s : String) : joinNl (stringLinesNl s) = s := by
  have hdata : (joinNl (stringLinesNl s)).data = s.data := by
    show joinNlL ((((splitOnNl s.data).map fun cs => String.mk cs).map String.data)) = s.data
    rw [List.map_map]
    have : (String.data ∘ fun cs => String.mk cs) = id := rfl
    rw [this, List.map_id, joinNlL_splitOnNl]
  calc joinNl (stringLinesNl s) = String.mk (joinNl (stringLinesNl s)).data := rfl
    _ = String.mk s.data := by rw [hdata]
    _ = s := rfl

/-- The kept lines of the cleaning loop are exactly the URL-stripped,
tag-stripped lines strictly before the first line the gate flags. -/
theorem clean_lines_fst (F : String → String) :
    ∀ ls : List String,
      (clean_lines F ls).1
        = (ls.takeWhile fun l => !(check_docstring (F l)).1).map
            fun l => remove_url (F l) := by
  intro ls
  induction ls with
  | nil => rfl
  | cons l rest ih =>
    cases hcd : check_docstring (F l) with
    | mk b res =>
      cases b
      · cases rest with
        | nil => simp [clean_lines, hcd, List.takeWhile_cons]
        | cons r rs =>
          have hstep : clean_lines F (l :: r :: rs)
              = (remove_url (F l) :: (clean_lines F (r :: rs)).1,
                 (clean_lines F (r :: rs)).2) := by
            simp [clean_lines, hcd]
          rw [hstep, List.takeWhile_cons]
          simp [hcd, ih]
      · simp [clean_lines, hcd, List.takeWhile_cons]

/-- On a non-empty string the question predicate returns a boolean
(`docstring[-1]` only raises on the empty string). -/
theorem contain_question_isSome_of_ne_empty (s : String) (h : s ≠ "") :
    (check_docstring_contain_question s).isSome = true := by
  rw [check_docstring_contain_question]
  cases hlast : s.data.getLast? with
  | none =>
    have hd : s.data = [] := by simpa using hlast
    have hs : s = "" := by
      cases s with
      | mk d =>
        have hd' : d = [] := by simpa using hd
        rw [hd']
    exact absurd hs h
  | some c => rfl

/-- A list all of whose elements satisfy `p` is its own `takeWhile`. -/
theorem takeWhile_eq_self_of_all {α : Type} (p : α → Bool) :
    ∀ l : List α, (∀ x ∈ l, p x = true) → l.takeWhile p = l := by
  intro l
  induction l with
  | nil => intro _; rfl
  | cons x xs ih =>
    intro h
    rw [List.takeWhile_cons, h x (by simp)]
    simp [ih fun y hy => h y (by simp [hy])]

/-- Rejection by the final length validation, spelled as token bounds. -/
theorem check_docstring_length_false_iff (s : String) :
    check_docstring_length s = false
      ↔ 4 ≤ (pyTokens (pyStrip s)).length ∧ (pyTokens (pyStrip s)).length ≤ 255 := by
  simp [check_docstring_length]
  omega

/-! ## Claim theorems -/

/-- C1: the claim states that `check_function` (no error marker, clean
identifier) rejects a node whose line span is at most 3 and accepts a
larger one, e.g. a 5-line body.  The code does the opposite:
`check_function_empty` returns `true` exactly for spans over 3 lines, and
`check_function` returns `false` whenever `check_function_empty` is true,
so the 5-line `computeTotal` node is rejected and the 1-line node is
accepted — contradicting the spec and `check_function`'s own docstring
("Check function if ... is empty ... have length < 3 lines"). -/
theorem check_function_rejects_long_accepts_trivial_span :
    check_function (TSNode.mk "function_definition" (0, 0) (5, 0) TSForest.nil)
        "computeTotal" (some []) = Except.ok false
  ∧ check_function (TSNode.mk "function_definition" (0, 0) (1, 0) TSForest.nil)
        "computeTotal" (some []) = Except.ok true
  ∧ check_function_empty (TSNode.mk "function_definition" (0, 0) (5, 0) TSForest.nil)
        = true
  ∧ check_function_empty (TSNode.mk "function_definition" (0, 0) (1, 0) TSForest.nil)
        = false := by
  refine ⟨by decide, by decide, by decide, by decide⟩

/-- C2 counterexample: the claim says every text-level predicate returns
a boolean on every string including the empty one, but
`check_docstring_contain_question` evaluates `docstring[-1]` first and
raises `IndexError` on `""` (modelled as `none`). -/
theorem contain_question_empty_string_raises :
    check_docstring_contain_question "" = none := rfl

/-- C2 amended: every text-level predicate except
`check_docstring_contain_question` is a total function over strings; the
question predicate returns a boolean exactly on non-empty strings, and
emptiness is handled as an explicit noise branch by the orchestrator
`check_docstring` (and, for `check_contain_little_single_char`, by its
own `length <= 1` branch), so the battery never applies the question
predicate to an empty string. -/
theorem text_predicates_totality_amended :
    (∀ s : String, s ≠ "" → (check_docstring_contain_question s).isSome = true)
  ∧ check_docstring "" = (true, [])
  ∧ check_contain_little_single_char "" = true := by
  refine ⟨contain_question_isSome_of_ne_empty, rfl, rfl⟩

/-- Witness for the amended C2 theorem at the concrete string `"x"`. -/
theorem text_predicates_totality_amended_witness :
    (check_docstring_contain_question "x").isSome = true :=
  text_predicates_totality_amended.1 "x" (by decide)

/-- C3: every invocation of the similarity-based auto-generated-code
detector fails before returning: the local `comment` holding the
comparison text is read before any assignment binds it to either
parameter, so Python raises `UnboundLocalError` on every call. -/
theorem check_autogenerated_by_code_always_raises
    (raw_code identifier : String) :
    check_autogenerated_by_code raw_code identifier
      = Except.error
          "UnboundLocalError: local variable comment referenced before assignment" := rfl

/-- C4: the cleaning orchestrator keeps exactly the URL-stripped,
tag-stripped lines strictly before the first line the quality gate flags
as noise (`takeWhile` of the gate's negation — so no line at or after the
first noisy one, blank separator lines included, is ever considered), and
the result is that concatenation subject to the final length
validation. -/
theorem clean_docstring_truncates_at_first_noisy_line
    (F : String → String) (d : String) :
    (clean_docstring F d).1
      = (let kept := ((pipelineLines d).takeWhile fun l => !(check_docstring (F l)).1).map
            fun l => remove_url (F l)
         let cleaned := pyStrip (joinNl kept)
         if check_docstring_length cleaned then none else some cleaned) := by
  simp only [clean_docstring, clean_lines_fst F (pipelineLines d)]
  split <;> rfl

/-- C5: `clean_docstring` accepts exactly when the whitespace-token count
of the pre-validation cleaned string lies between 4 and 255 (so a result
of 3 or 256 tokens is rejected and one of 4 or 255 tokens accepted), and
any accepted result string itself has between 4 and 255 tokens. -/
theorem clean_docstring_token_count_bounds (F : String → String) (d : String) :
    ((clean_docstring F d).1
        = if 4 ≤ (pyTokens (pyStrip (cleanedJoined F d))).length
              ∧ (pyTokens (pyStrip (cleanedJoined F d))).length ≤ 255
          then some (cleanedJoined F d) else none)
  ∧ (∀ s res, clean_docstring F d = (some s, res) →
        4 ≤ (pyTokens s).length ∧ (pyTokens s).length ≤ 255) := by
  constructor
  · cases hval : check_docstring_length (cleanedJoined F d) with
    | true =>
      have hneg : ¬ (4 ≤ (pyTokens (pyStrip (cleanedJoined F d))).length
          ∧ (pyTokens (pyStrip (cleanedJoined F d))).length ≤ 255) := by
        intro hcon
        rw [← check_docstring_length_false_iff] at hcon
        simp [hval] at hcon
      have hlhs : (clean_docstring F d).1 = none := by
        simp only [clean_docstring]
        rw [show check_docstring_length
            (pyStrip (joinNl (clean_lines F (pipelineLines d)).1)) = true from hval]
        rfl
      rw [hlhs, if_neg hneg]
    | false =>
      have hrange := (check_docstring_length_false_iff (cleanedJoined F d)).mp hval
      have hlhs : (clean_docstring F d).1 = some (cleanedJoined F d) := by
        simp only [clean_docstring]
        rw [show check_docstring_length
            (pyStrip (joinNl (clean_lines F (pipelineLines d)).1)) = false from hval]
        rfl
      rw [hlhs, if_pos hrange]
  · intro s res hacc
    have hacc1 := congrArg Prod.fst hacc
    simp only [clean_docstring] at hacc1
    cases hval : check_docstring_length (pyStrip (joinNl (clean_lines F (pipelineLines d)).1)) with
    | true => rw [hval] at hacc1; simp at hacc1
    | false =>
      rw [hval] at hacc1
      simp at hacc1
      have hrange := (check_docstring_length_false_iff _).mp hval
      rw [hacc1] at hrange
      have hstr : pyStrip s = s := by
        rw [← hacc1, pyStrip_idem]
      rw [← hstr]
      exact hrange

/-- Witness for C5 at the concrete four-token docstring `"a b c d"`. -/
theorem clean_docstring_token_count_bounds_witness :
    clean_docstring id "a b c d" = (some "a b c d", [])
  ∧ 4 ≤ (pyTokens "a b c d").length ∧ (pyTokens "a b c d").length ≤ 255 :=
  ⟨by decide,
   (clean_docstring_token_count_bounds id "a b c d").2 "a b c d" [] (by decide)⟩

/-- C10: `check_black_node` with the blacklist argument left at its
default `None` raises `TypeError` (the default keyword list is extended
with `None` before any check), for every node name; consequently
`check_function`, which consults the blacklist whenever the node carries
no error marker, also raises for every such node — the "optional"
blacklist must in fact be passed as a list for the filter to return a
result. -/
theorem check_black_node_default_blacklist_raises :
    (∀ name : String, check_black_node name none
        = Except.error "TypeError: NoneType object is not iterable")
  ∧ (∀ (node : TSNode) (name : String), check_node_error node = false →
        check_function node name none
          = Except.error "TypeError: NoneType object is not iterable") := by
  constructor
  · intro name; rfl
  · intro node name herr
    simp [check_function, herr, check_black_node]

/-- Witness for C10 at a concrete error-free node and name. -/
theorem check_black_node_default_blacklist_raises_witness :
    check_function (TSNode.mk "function_definition" (0, 0) (5, 0) TSForest.nil)
        "computeTotal" none
      = Except.error "TypeError: NoneType object is not iterable" :=
  check_black_node_default_blacklist_raises.2
    (TSNode.mk "function_definition" (0, 0) (5, 0) TSForest.nil) "computeTotal"
    (by decide)

/-- Scanning for the closing parenthesis succeeds through characters that
are neither `)` nor a newline. -/
theorem hasClose_through (xs r : List Char)
    (h : ∀ c ∈ xs, c ≠ ')' ∧ c ≠ '\n') : hasClose (xs ++ ')' :: r) = true := by
  induction xs with
  | nil => simp [hasClose]
  | cons x xt ih =>
    obtain ⟨h1, h2⟩ := h x (by simp)
    simp only [List.cons_append, hasClose]
    rw [if_neg h1, if_neg h2]
    exact ih fun c hc => h c (by simp [hc])

/-- In skip mode the scanner discards everything up to the first `)` and
resumes normal scanning after it. -/
theorem unrelGo_skip (xs t : List Char) (h : ∀ c ∈ xs, c ≠ ')') :
    unrelGo true (xs ++ ')' :: t) = unrelGo false t := by
  induction xs with
  | nil => simp [unrelGo]
  | cons x xt ih =>
    have h1 := h x (by simp)
    simp only [List.cons_append, unrelGo]
    rw [if_neg h1]
    exact ih fun c hc => h c (by simp [hc])

/-- C6 counterexample: the claim says the aside remover matches the
markers case-insensitively and across line breaks; the source pattern
`\((i\.e|e\.g|\beg|\bie).*?\)` has no `(?i)` flag and `.` does not match
a newline, so an upper-case marker and a line-spanning aside are both
left in place. -/
theorem remove_unrelevant_case_counterexample :
    remove_unrelevant "(E.g. upper case stays here)" = "(E.g. upper case stays here)"
  ∧ remove_unrelevant "(e.g spans a\nline break)" = "(e.g spans a\nline break)"
  ∧ remove_unrelevant "(e.g same line)" = "" := by
  refine ⟨by decide, by decide, by decide⟩

/-- C6 amended: `remove_unrelevant` removes every substring formed of `(`
followed by one of the lower-case markers `i.e`, `e.g`, `eg`, `ie`
followed by any characters other than `)` and newline up to the next `)`
(the word boundary before `eg`/`ie` always holds after `(`); asides whose
marker is upper-case or that span a line break are not removed. -/
theorem remove_unrelevant_amended :
    (∀ (m body tail : String),
        (m = "i.e" ∨ m = "e.g" ∨ m = "eg" ∨ m = "ie") →
        (∀ c ∈ body.data, c ≠ ')' ∧ c ≠ '\n') →
        remove_unrelevant ("(" ++ m ++ body ++ ")" ++ tail) = remove_unrelevant tail)
  ∧ remove_unrelevant "(E.g. upper case)" = "(E.g. upper case)"
  ∧ remove_unrelevant "(e.g one\ntwo)" = "(e.g one\ntwo)" := by
  refine ⟨?_, by decide, by decide⟩
  intro m body tail hm hbody
  have hdata : ("(" ++ m ++ body ++ ")" ++ tail).data
      = '(' :: (m.data ++ (body.data ++ (')' :: tail.data))) := by
    simp [String.data_append]
  have hm_safe : ∀ c ∈ m.data, c ≠ ')' ∧ c ≠ '\n' := by
    rcases hm with rfl | rfl | rfl | rfl <;>
      exact fun c hc => by fin_cases hc <;> exact ⟨by decide, by decide⟩
  have hsafe : ∀ c ∈ m.data ++ body.data, c ≠ ')' ∧ c ≠ '\n' := by
    intro c hc
    rcases List.mem_append.mp hc with hcm | hcb
    · exact hm_safe c hcm
    · exact hbody c hcb
  have hmarker : markerAt (m.data ++ (body.data ++ (')' :: tail.data))) = true := by
    rcases hm with rfl | rfl | rfl | rfl <;> simp [markerAt, List.isPrefixOf]
  have hclose : hasClose (m.data ++ (body.data ++ (')' :: tail.data))) = true := by
    have := hasClose_through (m.data ++ body.data) tail.data hsafe
    simpa [List.append_assoc] using this
  rw [remove_unrelevant, remove_unrelevant, hdata]
  congr 1
  rw [unrelGo, if_pos rfl, hmarker, hclose]
  simp only [Bool.and_self, if_true]
  have := unrelGo_skip (m.data ++ body.data) tail.data fun c hc => (hsafe c hc).1
  simpa [List.append_assoc] using this

/-- Witness for the amended C6 theorem at a concrete aside. -/
theorem remove_unrelevant_amended_witness :
    remove_unrelevant "(e.g. a concrete aside) and a tail"
      = remove_unrelevant " and a tail" :=
  remove_unrelevant_amended.1 "e.g" ". a concrete aside" " and a tail"
    (by simp) (by decide)

/-- A `Char.ofNat` below the surrogate range keeps its code. -/
theorem char_toNat_ofNat_small (n : Nat) (h : n < 55296) :
    (Char.ofNat n).toNat = n := by
  have hv : n.isValidChar := Or.inl h
  simp [Char.ofNat, hv, Char.ofNatAux, Char.toNat, UInt32.toNat]

/-- Lowercasing never produces an ASCII uppercase letter. -/
theorem isUpperAl_lowerChar (c : Char) : isUpperAl (lowerChar c) = false := by
  by_cases h : isUpperAl c = true
  · rw [lowerChar, if_pos h]
    have hn : 65 ≤ c.toNat ∧ c.toNat ≤ 90 := by simpa [isUpperAl] using h
    have hval : (Char.ofNat (c.toNat + 32)).toNat = c.toNat + 32 :=
      char_toNat_ofNat_small _ (by omega)
    simp only [isUpperAl, hval, decide_eq_false_iff_not]
    omega
  · rw [lowerChar, if_neg h]
    simpa using h

/-- Whitespace characters are not ASCII uppercase letters. -/
theorem isUpperAl_of_pyIsSpace (c : Char) (h : pyIsSpace c = true) :
    isUpperAl c = false := by
  simp only [pyIsSpace, decide_eq_true_eq] at h
  simp only [isUpperAl, decide_eq_false_iff_not]
  omega

/-- If every fragment the identifier splitter produces is empty, the
accumulator was empty and the remaining input consists solely of
underscores and whitespace (the only characters `SPLIT_REGEX` consumes). -/
theorem splitIdGo_all_empty :
    ∀ (cs : List Char) (prev : Option Char) (acc : List Char),
      (∀ f ∈ splitIdGo prev acc cs, f = []) →
      acc = [] ∧ ∀ c ∈ cs, c = '_' ∨ pyIsSpace c = true := by
  intro cs
  induction cs with
  | nil =>
    intro prev acc hall
    refine ⟨?_, by simp⟩
    have := hall acc.reverse (by simp [splitIdGo])
    simpa using this
  | cons b rest ih =>
    intro prev acc hall
    cases prev with
    | none =>
      simp only [splitIdGo] at hall
      by_cases hb : b = '_'
      · rw [if_pos hb] at hall
        have hacc : acc = [] := by
          have := hall acc.reverse (by simp)
          simpa using this
        have hrest := ih (some b) [] fun f hf => hall f (by simp [hf])
        refine ⟨hacc, fun c hc => ?_⟩
        rcases List.mem_cons.mp hc with rfl | hc'
        · exact Or.inl hb
        · exact hrest.2 c hc'
      · rw [if_neg hb] at hall
        by_cases hsp : pyIsSpace b = true
        · rw [if_pos hsp] at hall
          have hacc : acc = [] := by
            have := hall acc.reverse (by simp)
            simpa using this
          have hrest := ih (some b) [] fun f hf => hall f (by simp [hf])
          refine ⟨hacc, fun c hc => ?_⟩
          rcases List.mem_cons.mp hc with rfl | hc'
          · exact Or.inr hsp
          · exact hrest.2 c hc'
        · rw [if_neg hsp] at hall
          have := (ih (some b) [b] hall).1
          simp at this
    | some p =>
      simp only [splitIdGo] at hall
      by_cases hb : b = '_'
      · rw [if_pos hb] at hall
        have hacc : acc = [] := by
          have := hall acc.reverse (by simp)
          simpa using this
        have hrest := ih (some b) [] fun f hf => hall f (by simp [hf])
        refine ⟨hacc, fun c hc => ?_⟩
        rcases List.mem_cons.mp hc with rfl | hc'
        · exact Or.inl hb
        · exact hrest.2 c hc'
      · rw [if_neg hb] at hall
        by_cases hsp : pyIsSpace b = true
        · rw [if_pos hsp] at hall
          by_cases hp : pyIsSpace p = true
          · rw [if_pos hp] at hall
            have hres := ih (some b) acc hall
            refine ⟨hres.1, fun c hc => ?_⟩
            rcases List.mem_cons.mp hc with rfl | hc'
            · exact Or.inr hsp
            · exact hres.2 c hc'
          · rw [if_neg hp] at hall
            have hacc : acc = [] := by
              have := hall acc.reverse (by simp)
              simpa using this
            have hrest := ih (some b) [] fun f hf => hall f (by simp [hf])
            refine ⟨hacc, fun c hc => ?_⟩
            rcases List.mem_cons.mp hc with rfl | hc'
            · exact Or.inr hsp
            · exact hrest.2 c hc'
        · rw [if_neg hsp] at hall
          by_cases hbd : isBoundary p b rest.head? = true
          · rw [if_pos hbd] at hall
            have := (ih (some b) [b] fun f hf => hall f (by simp [hf])).1
            simp at this
          · rw [if_neg hbd] at hall
            have := (ih (some b) (b :: acc) hall).1
            simp at this

/-- C8: for every identifier the tokenizer returns a non-empty sequence
whose every part contains no ASCII uppercase letter: the non-fallback
parts are explicitly lowercased, and the fallback (zero fragments, which
forces the identifier to consist of underscores and whitespace only)
returns the original identifier unchanged as a one-element sequence. -/
theorem split_identifier_parts_nonempty_lowercase :
    (∀ identifier : String, split_identifier_into_parts identifier ≠ [])
  ∧ (∀ identifier : String, ∀ p ∈ split_identifier_into_parts identifier,
        ∀ c ∈ p.data, isUpperAl c = false)
  ∧ (∀ identifier : String, split_identifier_fragments identifier = [] →
        split_identifier_into_parts identifier = [identifier]) := by
  refine ⟨?_, ?_, ?_⟩
  · intro identifier
    rw [split_identifier_into_parts]
    by_cases h : (split_identifier_fragments identifier).isEmpty = true
    · simp [h]
    · rw [if_neg (by simpa using h)]
      simpa [List.isEmpty_iff] using h
  · intro identifier p hp c hc
    rw [split_identifier_into_parts] at hp
    by_cases h : (split_identifier_fragments identifier).isEmpty = true
    · rw [if_pos (by simpa using h)] at hp
      have hpid : p = identifier := by simpa using hp
      rw [hpid] at hc
      have hfrag : ∀ f ∈ splitRegexSplit identifier, f = [] := by
        have hemp : split_identifier_fragments identifier = [] :=
          List.isEmpty_iff.mp h
        rw [split_identifier_fragments] at hemp
        simp only [List.map_eq_nil_iff, List.filter_eq_nil_iff] at hemp
        intro f hf
        have := hemp f hf
        simp at this
        exact this
      rcases (splitIdGo_all_empty identifier.data none [] hfrag).2 c hc with rfl | hsp
      · decide
      · exact isUpperAl_of_pyIsSpace c hsp
    · rw [if_neg (by simpa using h)] at hp
      rw [split_identifier_fragments] at hp
      rcases List.mem_map.mp hp with ⟨f, hf, rfl⟩
      rcases List.mem_map.mp hc with ⟨c0, hc0, rfl⟩
      exact isUpperAl_lowerChar c0
  · intro identifier hemp
    rw [split_identifier_into_parts, hemp]
    rfl

/-- Witness for C8 at the spec's own example identifier. -/
theorem split_identifier_parts_nonempty_lowercase_witness :
    split_identifier_into_parts "getHTTPResponseCode"
        = ["get", "http", "response", "code"]
  ∧ (∀ c ∈ ("http" : String).data, isUpperAl c = false) :=
  ⟨by decide,
   split_identifier_parts_nonempty_lowercase.2.1 "getHTTPResponseCode" "http"
     (by decide)⟩

/-- C9 counterexample: the claim says the predicate fires when the
fraction of whitespace *tokens* matching an all-caps pattern exceeds 0.3;
the code counts `findall` *matches*, several of which can live in one
token.  On 13 tokens whose first contains four all-caps matches the code
fires (40 > 39) while the per-token fraction is 1/13. -/
theorem many_uppercase_word_counts_matches_not_tokens :
    check_contain_many_uppercase_word
        "AB-CD-EF-GH aa bb cc dd ee ff gg hh ii jj kk ll" = true
  ∧ claimed_many_uppercase_word
        "AB-CD-EF-GH aa bb cc dd ee ff gg hh ii jj kk ll" = false := by
  refine ⟨by decide, by decide⟩

/-- C9 amended: after the sequential substring replacements `DD`→`dd`,
`MM`→`mm`, `YY`→`yy` (the final `YYYY` replacement is then vacuous), the
predicate fires exactly when the token count exceeds 4 and the ratio of
the number of all-caps `[A-Z][A-Z0-9]+` matches anywhere in the text —
equivalently, of maximal uppercase-digit runs containing an uppercase
letter before their last character — to the token count exceeds 0.3. -/
theorem many_uppercase_word_amended (s : String) :
    check_contain_many_uppercase_word s = amended_many_uppercase_word s := by
  simp only [check_contain_many_uppercase_word, amended_many_uppercase_word,
    countUW_eq_upperRunCount]

/-- C7 counterexample: an accepted cleaned result is not a fixpoint of
`clean_docstring`.  The aside remover leaves `"compute the value of a= "`
whose stripped form ends in `=`; on a second pass the delimiter regex
`([\s\/*=-]+)$` strips that `=`, so re-cleaning the accepted output
returns a different string. -/
theorem clean_docstring_not_idempotent :
    (clean_docstring id "compute the value of a= (e.g x)").1
        = some "compute the value of a="
  ∧ (clean_docstring id "compute the value of a=").1
        = some "compute the value of a"
  ∧ ("compute the value of a" : String) ≠ "compute the value of a=" := by
  refine ⟨by decide, by decide, by decide⟩

/-- C7 amended: re-cleaning an accepted output `s` returns `s` unchanged
provided the second pass's preprocessing leaves `s` fixed — the delimiter
stripper returns exactly `s`'s lines, the aside remover fixes `s`, the
tag stripper and the URL remover fix each line — and every line of `s`
passes the quality gate; without these fixpoint conditions idempotence
fails (see the counterexample). -/
theorem clean_docstring_idempotent_on_fixpoints
    (F : String → String) (d s : String) (res : List String)
    (hacc : clean_docstring F d = (some s, res))
    (hdelim : remove_comment_delimiters s = stringLinesNl s)
    (hunrel : remove_unrelevant s = s)
    (htag : ∀ l ∈ stringLinesNl s, F l = l)
    (hurl : ∀ l ∈ stringLinesNl s, remove_url l = l)
    (hgate : ∀ l ∈ stringLinesNl s, (check_docstring l).1 = false) :
    (clean_docstring F s).1 = some s := by
  have hacc1 := congrArg Prod.fst hacc
  simp only [clean_docstring] at hacc1
  cases hval : check_docstring_length
      (pyStrip (joinNl (clean_lines F (pipelineLines d)).1)) with
  | true =>
    rw [hval] at hacc1
    simp at hacc1
  | false =>
    rw [hval] at hacc1
    simp at hacc1
    have hstrip : pyStrip s = s := by rw [← hacc1, pyStrip_idem]
    have hlen : check_docstring_length s = false := by rw [← hacc1]; exact hval
    have hpipe : pipelineLines s = stringLinesNl s := by
      rw [pipelineLines, hdelim, joinNl_stringLinesNl, hunrel, hstrip]
    have hkeep : (clean_lines F (stringLinesNl s)).1 = stringLinesNl s := by
      rw [clean_lines_fst]
      have htake : (stringLinesNl s).takeWhile (fun l => !(check_docstring (F l)).1)
          = stringLinesNl s := by
        apply takeWhile_eq_self_of_all
        intro l hl
        rw [htag l hl, hgate l hl]
        rfl
      rw [htake]
      have hmap : (stringLinesNl s).map (fun l => remove_url (F l))
          = (stringLinesNl s).map id :=
        List.map_congr_left fun x hx => by rw [htag x hx, hurl x hx]; rfl
      rw [hmap, List.map_id]
    have hlhs : (clean_docstring F s).1
        = (if check_docstring_length s then none else some s) := by
      simp only [clean_docstring, hpipe, hkeep, joinNl_stringLinesNl, hstrip]
      split <;> rfl
    rw [hlhs, hlen]
    rfl

/-- Witness for the amended C7 theorem: a concrete accepted string all of
whose preprocessing fixpoint conditions hold. -/
theorem clean_docstring_idempotent_on_fixpoints_witness :
    (clean_docstring id "compute the total sum now").1
      = some "compute the total sum now" :=
  clean_docstring_idempotent_on_fixpoints id "compute the total sum now"
    "compute the total sum now" []
    (by decide) (by decide) (by decide) (by decide) (by decide) (by decide)

/-! ## Concrete sanity evaluations -/

example : split_identifier_into_parts "getHTTPResponseCode"
    = ["get", "http", "response", "code"] := by decide

example : split_identifier_into_parts "snake_case_name" = ["snake", "case", "name"] := by
  decide

example : split_identifier_into_parts "___" = ["___"] := by decide

example : remove_comment_delimiters "// TODO: fix this" = ["TODO: fix this"] := by
  decide

example : remove_comment_delimiters "/* a\n * b */" = ["a", "b"] := by decide

example : remove_unrelevant "keep (e.g. drop this) keep" = "keep  keep" := by decide

example : remove_unrelevant "(E.g. upper case stays)" = "(E.g. upper case stays)" := by
  decide

example : remove_url "see http://example.com here" = "see  here" := by decide

example : remove_url "ends with http" = "ends with http" := by decide

example :
    clean_docstring id "// TODO: fix this"
      = (none, ["<check_docstring_underdevelopment> TODO: fix this"]) := by decide

example :
    (clean_docstring id "line one is quite fine\nAuto-generated by IDE\nline three").1
      = some "line one is quite fine" := by decide

example :
    check_black_node "computeTotal" (some []) = Except.ok false := by decide

example :
    check_function (TSNode.mk "function_definition" (0, 0) (5, 0) TSForest.nil)
        "computeTotal" (some []) = Except.ok false := by decide

example :
    check_function (TSNode.mk "function_definition" (0, 0) (1, 0) TSForest.nil)
        "computeTotal" (some []) = Except.ok true := by decide

example : countUW false "ABCdEF".data = 2 := by decide

example : upperRunCount "ABCdEF".data = 2 := by decide
